import Mathlib

/-!
Verification development for the `ts-stdlib` reference-counting library
(`src/rc.ts`) and the null-checking `Some` constructor of `src/option.ts`.

The TypeScript code is shallowly embedded as a state machine:

* `RcInner` models the class `RcInner<T>` (`rc.ts` lines 102-158).  The
  resource value and the cleanup closure are modelled by `data : TsOption`
  (the source stores `Option<T>`), a flag `disposeFnOriginal` (the source
  replaces `disposeFn` with a no-op after disposal), and `cleanupThrows`
  (whether the user-supplied cleanup closure throws when invoked).  Two ghost
  fields instrument the history without affecting behaviour: `cleanupRuns`
  counts invocations of the original cleanup closure, and `reachedZero`
  records whether `refCount` ever reached zero.
* `StrongHandle` / `WeakHandle` model the proxy closures made by
  `createProxy` / `createWeakProxy`: each proxy owns a private `isDisposed`
  flag; a strong proxy stores the proxy target (`inner.data.unwrap()`
  captured at creation), and a weak proxy stores `captured`, i.e. whether
  `map.get(id)` returned the inner (rather than `undefined`) when
  `createWeakProxy` ran.
* `RcState` holds the module-level mutable state of `rc.ts`: the id counter
  `nextId` (`let id = 0`), the persistent JS heap of `RcInner` objects
  (`heap`; object references stay valid after `map.delete`, so entries are
  never removed from `heap`), the key set of the registry `map` (`live`),
  and the proxies created so far.  `nextHandle` is model bookkeeping that
  numbers the proxies.

JS exceptions are modelled with `Except RcErr`; mutations performed before a
throw persist, exactly as in JS.
-/

/-- JS runtime values, as far as the library inspects them:
`null`, `undefined`, primitives, and objects (identified by a number). -/
inductive JsValue where
  | vNull : JsValue
  | vUndefined : JsValue
  | vBool (b : Bool) : JsValue
  | vNum (n : Int) : JsValue
  | vStr (s : String) : JsValue
  | vObj (oid : Nat) : JsValue
deriving DecidableEq, Repr

/-- Runtime `Option` objects of `option.ts`: a `None` object or a `Some`
object wrapping a value. -/
inductive TsOption where
  | noneV : TsOption
  | someV (value : JsValue) : TsOption
deriving DecidableEq, Repr

/-- `option.ts` `Some(value)`: returns `None` when the argument is
`undefined` or `null`, otherwise a `Some` object wrapping it
(`option.ts` lines 565-575). -/
def Some (value : JsValue) : TsOption :=
  if value = JsValue.vUndefined ∨ value = JsValue.vNull then TsOption.noneV
  else TsOption.someV value

/-- `option.ts` `None`: the absent option value. -/
def None : TsOption := TsOption.noneV

/-- `isSome()` of `option.ts`. -/
def TsOption.isSome : TsOption → Bool
  | TsOption.noneV => false
  | TsOption.someV _ => true

/-- `isNone()` of `option.ts`. -/
def TsOption.isNone : TsOption → Bool
  | TsOption.noneV => true
  | TsOption.someV _ => false

/-- The JS exceptions the modelled code can throw, one constructor per
`throw` site (plus `typeError` for property reads on `undefined`, and
`cleanupError` for an exception raised by a user cleanup closure). -/
inductive RcErr where
  | rcAlreadyDisposed : RcErr
  | cannotClone : RcErr
  | cannotWeak : RcErr
  | cannotIntoWeak : RcErr
  | accessedAfterDisposal : RcErr
  | weakAlreadyDisposed : RcErr
  | weakAccess : RcErr
  | incDisposed : RcErr
  | decDisposed : RcErr
  | incWeakDisposed : RcErr
  | decWeakDisposed : RcErr
  | unwrapNone : RcErr
  | cleanupError : RcErr
  | typeError : RcErr
deriving DecidableEq, Repr

/-- The class `RcInner<T>` (`rc.ts` lines 102-158).  `cleanupRuns` and
`reachedZero` are ghost instrumentation (see the module docstring). -/
structure RcInner where
  refCount : Int
  weakCount : Int
  data : TsOption
  disposeFnOriginal : Bool
  cleanupThrows : Bool
  disposed : Bool
  cleanupRuns : Nat
  reachedZero : Bool
deriving DecidableEq, Repr

/-- `RcInner.incrementCount` (`rc.ts` lines 116-122). -/
def RcInner.incrementCount (e : RcInner) : Except RcErr RcInner :=
  if e.disposed then Except.error RcErr.incDisposed
  else Except.ok { e with refCount := e.refCount + 1 }

/-- `RcInner.decrementCount` (`rc.ts` lines 124-130); the ghost field
`reachedZero` is set when the count hits zero. -/
def RcInner.decrementCount (e : RcInner) : Except RcErr RcInner :=
  if e.disposed then Except.error RcErr.decDisposed
  else Except.ok { e with refCount := e.refCount - 1,
                          reachedZero := if e.refCount - 1 = 0 then true else e.reachedZero }

/-- `RcInner.incrementWeakCount` (`rc.ts` lines 132-138). -/
def RcInner.incrementWeakCount (e : RcInner) : Except RcErr RcInner :=
  if e.disposed then Except.error RcErr.incWeakDisposed
  else Except.ok { e with weakCount := e.weakCount + 1 }

/-- `RcInner.decrementWeakCount` (`rc.ts` lines 140-146). -/
def RcInner.decrementWeakCount (e : RcInner) : Except RcErr RcInner :=
  if e.disposed then Except.error RcErr.decWeakDisposed
  else Except.ok { e with weakCount := e.weakCount - 1 }

/-- `RcInner.dispose` (`rc.ts` lines 148-157): when not yet disposed, it
calls `this.disposeFn.call(null, this.data.unwrap())` and only afterwards
marks the entry disposed, zeroes the counters, clears `data` and replaces
`disposeFn` with a no-op.  An exception from `unwrap` or from the cleanup
closure aborts before those assignments; the partial state (the ghost
`cleanupRuns` increment records that the cleanup closure did run) is
returned together with the raised error. -/
def RcInner.dispose (e : RcInner) : RcInner × Option RcErr :=
  if e.disposed then (e, Option.none)
  else
    match e.data with
    | TsOption.noneV => (e, Option.some RcErr.unwrapNone)
    | TsOption.someV _ =>
      let e1 := if e.disposeFnOriginal then { e with cleanupRuns := e.cleanupRuns + 1 } else e
      if e.disposeFnOriginal && e.cleanupThrows then (e1, Option.some RcErr.cleanupError)
      else ({ e1 with refCount := 0, weakCount := 0, data := TsOption.noneV,
                      disposeFnOriginal := false, disposed := true, reachedZero := true },
            Option.none)

/-- The closure state of a strong proxy made by `createProxy`
(`rc.ts` lines 257-326): the entry id it is bound to, its private
`isDisposed` flag, and the proxy target `inner.data.unwrap()` captured at
creation time. -/
structure StrongHandle where
  entryId : Nat
  isDisposed : Bool
  target : JsValue
deriving DecidableEq, Repr

/-- The closure state of a weak proxy made by `createWeakProxy`
(`rc.ts` lines 206-255): the entry id, whether `const inner = map.get(id)!`
actually found the inner (`captured = false` models `inner === undefined`),
and the private `isDisposed` flag. -/
structure WeakHandle where
  entryId : Nat
  captured : Bool
  isDisposed : Bool
deriving DecidableEq, Repr

/-- The record returned by `Rc.inspect` (`rc.ts` lines 74-100). -/
structure RcInfo where
  id : Nat
  refCount : Int
  weakCount : Int
  disposed : Bool
  innerDisposed : Bool
deriving DecidableEq, Repr

/-- The module-level mutable state of `rc.ts` (see the module docstring). -/
structure RcState where
  nextId : Nat
  heap : List (Nat × RcInner)
  live : List Nat
  strongs : List (Nat × StrongHandle)
  weaks : List (Nat × WeakHandle)
  nextHandle : Nat
deriving DecidableEq, Repr

/-- Association-list lookup by numeric key (first occurrence). -/
def lookupA {α : Type} : List (Nat × α) → Nat → Option α
  | [], _ => Option.none
  | (k, v) :: t, i => if k = i then Option.some v else lookupA t i

/-- Association-list update of the first occurrence of a key; no-op when the
key is absent. -/
def setA {α : Type} : List (Nat × α) → Nat → α → List (Nat × α)
  | [], _, _ => []
  | (k, v) :: t, i, w => if k = i then (k, w) :: t else (k, v) :: setA t i w

/-- `Rc(object, dispose)` (`rc.ts` lines 337-342): allocates a fresh id
(`getNextId`, lines 160-164), creates an `RcInner` with
`refCount = 1`, `weakCount = 0`, `data = Some(object)`, stores it in the
registry map, and returns a strong proxy for it.  The resource is an object
`JsValue.vObj r`; `ct` says whether its cleanup closure throws. -/
def Rc (s : RcState) (r : Nat) (ct : Bool) : RcState × Except RcErr Nat :=
  let newId := s.nextId + 1
  let inner : RcInner :=
    { refCount := 1, weakCount := 0, data := Some (JsValue.vObj r),
      disposeFnOriginal := true, cleanupThrows := ct, disposed := false,
      cleanupRuns := 0, reachedZero := false }
  let s1 := { s with nextId := newId, heap := (newId, inner) :: s.heap,
                     live := newId :: s.live }
  match inner.data with
  | TsOption.noneV => (s1, Except.error RcErr.unwrapNone)
  | TsOption.someV t =>
    ({ s1 with strongs := (s1.nextHandle, ⟨newId, false, t⟩) :: s1.strongs,
               nextHandle := s1.nextHandle + 1 },
     Except.ok s1.nextHandle)

/-- `dispose` of a strong proxy (`rc.ts` lines 270-282): throws when the
handle is already disposed; otherwise decrements the strong count, and when
it reaches zero runs `try { inner.dispose() } catch (_e) {}` followed by
`map.delete(id)`; finally marks the handle disposed. -/
def Rc.dispose (s : RcState) (h : Nat) : RcState × Except RcErr Unit :=
  match lookupA s.strongs h with
  | Option.none => (s, Except.error RcErr.typeError)
  | Option.some sh =>
    if sh.isDisposed then (s, Except.error RcErr.rcAlreadyDisposed)
    else
      match lookupA s.heap sh.entryId with
      | Option.none => (s, Except.error RcErr.typeError)
      | Option.some e =>
        match e.decrementCount with
        | Except.error err => (s, Except.error err)
        | Except.ok e1 =>
          if e1.refCount = 0 then
            ({ s with heap := setA s.heap sh.entryId (RcInner.dispose e1).1,
                      live := s.live.filter (fun i => i != sh.entryId),
                      strongs := setA s.strongs h { sh with isDisposed := true } },
             Except.ok ())
          else
            ({ s with heap := setA s.heap sh.entryId e1,
                      strongs := setA s.strongs h { sh with isDisposed := true } },
             Except.ok ())

/-- `clone` of a strong proxy (`rc.ts` lines 283-289): throws when the
handle is disposed; otherwise increments the strong count and returns a new
strong proxy (whose target is `inner.data.unwrap()`). -/
def Rc.clone (s : RcState) (h : Nat) : RcState × Except RcErr Nat :=
  match lookupA s.strongs h with
  | Option.none => (s, Except.error RcErr.typeError)
  | Option.some sh =>
    if sh.isDisposed then (s, Except.error RcErr.cannotClone)
    else
      match lookupA s.heap sh.entryId with
      | Option.none => (s, Except.error RcErr.typeError)
      | Option.some e =>
        match e.incrementCount with
        | Except.error err => (s, Except.error err)
        | Except.ok e1 =>
          match e1.data with
          | TsOption.noneV =>
            ({ s with heap := setA s.heap sh.entryId e1 }, Except.error RcErr.unwrapNone)
          | TsOption.someV t =>
            ({ s with heap := setA s.heap sh.entryId e1,
                      strongs := (s.nextHandle, ⟨sh.entryId, false, t⟩) :: s.strongs,
                      nextHandle := s.nextHandle + 1 },
             Except.ok s.nextHandle)

/-- `weak` of a strong proxy (`rc.ts` lines 290-296): throws when the handle
is disposed; otherwise increments the weak count and returns a new weak
proxy via `createWeakProxy(id)` (which captures `map.get(id)`). -/
def Rc.weak (s : RcState) (h : Nat) : RcState × Except RcErr Nat :=
  match lookupA s.strongs h with
  | Option.none => (s, Except.error RcErr.typeError)
  | Option.some sh =>
    if sh.isDisposed then (s, Except.error RcErr.cannotWeak)
    else
      match lookupA s.heap sh.entryId with
      | Option.none => (s, Except.error RcErr.typeError)
      | Option.some e =>
        match e.incrementWeakCount with
        | Except.error err => (s, Except.error err)
        | Except.ok e1 =>
          ({ s with heap := setA s.heap sh.entryId e1,
                    weaks := (s.nextHandle, ⟨sh.entryId, s.live.contains sh.entryId, false⟩)
                               :: s.weaks,
                    nextHandle := s.nextHandle + 1 },
           Except.ok s.nextHandle)

/-- `intoWeak` of a strong proxy (`rc.ts` lines 297-311): throws when the
handle is disposed; otherwise decrements the strong count, increments the
weak count, and when the strong count reached zero runs
`try { inner.dispose() } catch {}` and `map.delete(id)`; marks the handle
disposed and returns a weak proxy created *after* the deletion, so
`createWeakProxy` then captures `map.get(id) = undefined`. -/
def Rc.intoWeak (s : RcState) (h : Nat) : RcState × Except RcErr Nat :=
  match lookupA s.strongs h with
  | Option.none => (s, Except.error RcErr.typeError)
  | Option.some sh =>
    if sh.isDisposed then (s, Except.error RcErr.cannotIntoWeak)
    else
      match lookupA s.heap sh.entryId with
      | Option.none => (s, Except.error RcErr.typeError)
      | Option.some e =>
        match e.decrementCount with
        | Except.error err => (s, Except.error err)
        | Except.ok e1 =>
          match e1.incrementWeakCount with
          | Except.error err =>
            ({ s with heap := setA s.heap sh.entryId e1 }, Except.error err)
          | Except.ok e2 =>
            if e2.refCount = 0 then
              let live2 := s.live.filter (fun i => i != sh.entryId)
              ({ s with heap := setA s.heap sh.entryId (RcInner.dispose e2).1,
                        live := live2,
                        strongs := setA s.strongs h { sh with isDisposed := true },
                        weaks := (s.nextHandle,
                                   ⟨sh.entryId, live2.contains sh.entryId, false⟩) :: s.weaks,
                        nextHandle := s.nextHandle + 1 },
               Except.ok s.nextHandle)
            else
              ({ s with heap := setA s.heap sh.entryId e2,
                        strongs := setA s.strongs h { sh with isDisposed := true },
                        weaks := (s.nextHandle,
                                   ⟨sh.entryId, s.live.contains sh.entryId, false⟩) :: s.weaks,
                        nextHandle := s.nextHandle + 1 },
               Except.ok s.nextHandle)

/-- Member access through a strong proxy (`rc.ts` lines 314-317): throws
`"Rc accessed after disposal"` when the handle is disposed, otherwise
forwards to the captured target. -/
def Rc.access (s : RcState) (h : Nat) : RcState × Except RcErr JsValue :=
  match lookupA s.strongs h with
  | Option.none => (s, Except.error RcErr.typeError)
  | Option.some sh =>
    if sh.isDisposed then (s, Except.error RcErr.accessedAfterDisposal)
    else (s, Except.ok sh.target)

/-- `Rc.inspect` on a strong proxy (`rc.ts` lines 417-432 with the `Marker`
api of lines 262-269): builds the info record from the captured inner and
the handle flag; no mutation. -/
def Rc.inspect (s : RcState) (h : Nat) : RcState × Except RcErr RcInfo :=
  match lookupA s.strongs h with
  | Option.none => (s, Except.error RcErr.typeError)
  | Option.some sh =>
    match lookupA s.heap sh.entryId with
    | Option.none => (s, Except.error RcErr.typeError)
    | Option.some e =>
      (s, Except.ok ⟨sh.entryId, e.refCount, e.weakCount, sh.isDisposed, e.disposed⟩)

/-- Member access on a weak proxy with any property other than the
`WeakMarker` symbol (`rc.ts` line 246): always throws
`"Weak references can only be upgraded or disposed"`. -/
def Weak.access (s : RcState) (h : Nat) : RcState × Except RcErr JsValue :=
  match lookupA s.weaks h with
  | Option.none => (s, Except.error RcErr.typeError)
  | Option.some _ => (s, Except.error RcErr.weakAccess)

/-- `dispose` of a weak proxy (`rc.ts` lines 220-230).  Reading the
`WeakMarker` api object first evaluates `inner.refCount` etc., which throws
a `TypeError` when the captured `inner` is `undefined` (`captured = false`).
Otherwise: throws when the weak handle is already disposed; when the inner
is disposed just marks the handle disposed; else decrements the weak count
and marks the handle disposed. -/
def Weak.dispose (s : RcState) (h : Nat) : RcState × Except RcErr Unit :=
  match lookupA s.weaks h with
  | Option.none => (s, Except.error RcErr.typeError)
  | Option.some wh =>
    if wh.captured then
      match lookupA s.heap wh.entryId with
      | Option.none => (s, Except.error RcErr.typeError)
      | Option.some e =>
        if wh.isDisposed then (s, Except.error RcErr.weakAlreadyDisposed)
        else if e.disposed then
          ({ s with weaks := setA s.weaks h { wh with isDisposed := true } }, Except.ok ())
        else
          match e.decrementWeakCount with
          | Except.error err => (s, Except.error err)
          | Except.ok e1 =>
            ({ s with heap := setA s.heap wh.entryId e1,
                      weaks := setA s.weaks h { wh with isDisposed := true } },
             Except.ok ())
    else (s, Except.error RcErr.typeError)

/-- `upgrade` of a weak proxy (`rc.ts` lines 231-243).  As in
`Weak.dispose`, a weak proxy whose captured `inner` is `undefined` throws a
`TypeError` while the api object is built.  Otherwise returns `None` when
the weak handle is disposed, when the registry no longer holds the id, or
when the inner is disposed; else increments the strong count and returns
`Some` of a fresh strong proxy. -/
def Weak.upgrade (s : RcState) (h : Nat) : RcState × Except RcErr TsOption :=
  match lookupA s.weaks h with
  | Option.none => (s, Except.error RcErr.typeError)
  | Option.some wh =>
    if wh.captured then
      match lookupA s.heap wh.entryId with
      | Option.none => (s, Except.error RcErr.typeError)
      | Option.some e =>
        if wh.isDisposed then (s, Except.ok None)
        else if s.live.contains wh.entryId then
          if e.disposed then (s, Except.ok None)
          else
            match e.incrementCount with
            | Except.error err => (s, Except.error err)
            | Except.ok e1 =>
              match e1.data with
              | TsOption.noneV =>
                ({ s with heap := setA s.heap wh.entryId e1 }, Except.error RcErr.unwrapNone)
              | TsOption.someV t =>
                ({ s with heap := setA s.heap wh.entryId e1,
                          strongs := (s.nextHandle, ⟨wh.entryId, false, t⟩) :: s.strongs,
                          nextHandle := s.nextHandle + 1 },
                 Except.ok (Some (JsValue.vObj s.nextHandle)))
        else (s, Except.ok None)
    else (s, Except.error RcErr.typeError)

/-- `Rc.inspect` on a weak proxy (`rc.ts` lines 417-432 with the
`WeakMarker` api of lines 212-219); throws a `TypeError` when the captured
`inner` is `undefined`. -/
def Weak.inspect (s : RcState) (h : Nat) : RcState × Except RcErr RcInfo :=
  match lookupA s.weaks h with
  | Option.none => (s, Except.error RcErr.typeError)
  | Option.some wh =>
    if wh.captured then
      match lookupA s.heap wh.entryId with
      | Option.none => (s, Except.error RcErr.typeError)
      | Option.some e =>
        (s, Except.ok ⟨wh.entryId, e.refCount, e.weakCount, wh.isDisposed, e.disposed⟩)
    else (s, Except.error RcErr.typeError)

/-- One external call into the library's API surface (§4.2-§4.4 of the
spec): the argument is the proxy number the call is made on.  `mkRc r ct`
is the constructor `Rc(object, dispose)` with resource object `r` and a
cleanup closure that throws iff `ct`. -/
inductive Op where
  | mkRc (r : Nat) (ct : Bool) : Op
  | clone (h : Nat) : Op
  | dispose (h : Nat) : Op
  | weak (h : Nat) : Op
  | intoWeak (h : Nat) : Op
  | access (h : Nat) : Op
  | inspectRc (h : Nat) : Op
  | disposeWeak (h : Nat) : Op
  | upgrade (h : Nat) : Op
  | inspectWeak (h : Nat) : Op
  | accessWeak (h : Nat) : Op
deriving DecidableEq, Repr

/-- The state reached after one API call (the call's return value or
exception is dropped; mutations persist either way, as in JS). -/
def step (s : RcState) : Op → RcState
  | Op.mkRc r ct => (Rc s r ct).1
  | Op.clone h => (Rc.clone s h).1
  | Op.dispose h => (Rc.dispose s h).1
  | Op.weak h => (Rc.weak s h).1
  | Op.intoWeak h => (Rc.intoWeak s h).1
  | Op.access h => (Rc.access s h).1
  | Op.inspectRc h => (Rc.inspect s h).1
  | Op.disposeWeak h => (Weak.dispose s h).1
  | Op.upgrade h => (Weak.upgrade s h).1
  | Op.inspectWeak h => (Weak.inspect s h).1
  | Op.accessWeak h => (Weak.access s h).1

/-- Run a sequence of API calls. -/
def run (s : RcState) (ops : List Op) : RcState := ops.foldl step s

/-- The module state right after `rc.ts` is loaded: `id = 0`, empty
registry, no proxies. -/
def initState : RcState := ⟨0, [], [], [], [], 0⟩

/-- States reachable by some sequence of API calls. -/
def Reachable (s : RcState) : Prop := ∃ ops, run initState ops = s

/-- An op whose cleanup closure (if it installs one) does not throw. -/
def Op.noThrow : Op → Prop
  | Op.mkRc _ ct => ct = false
  | _ => True

/-- States reachable using only cleanup closures that do not throw. -/
def ReachableNT (s : RcState) : Prop :=
  ∃ ops, (∀ op ∈ ops, op.noThrow) ∧ run initState ops = s

/-- `const r = Rc(obj, cleanup); const w = Rc.intoWeak(r);` — the state
after converting the single remaining strong handle into a weak one.  The
weak proxy is handle 1; `createWeakProxy` ran after `map.delete(id)`, so its
captured `inner` is `undefined`. -/
def zombieState : RcState := run initState [Op.mkRc 42 false, Op.intoWeak 0]

/-- `const r = Rc(obj, cleanup); const w = Rc.weak(r); Rc.dispose(r);` —
the sequence the source documentation calls equivalent to `intoWeak`.  The
weak proxy is handle 1 and captured a real inner. -/
def weakEquivState : RcState := run initState [Op.mkRc 42 false, Op.weak 0, Op.dispose 0]

/-- One resource whose cleanup closure throws, not yet disposed. -/
def throwPreState : RcState := run initState [Op.mkRc 7 true]

/-- The same resource after `Rc.dispose` of its only strong handle: the
cleanup threw. -/
def throwState : RcState := run initState [Op.mkRc 7 true, Op.dispose 0]

/-- A resource with a throwing cleanup, a weak handle (handle 1) created
before the final dispose. -/
def throwWeakState : RcState := run initState [Op.mkRc 7 true, Op.weak 0, Op.dispose 0]

/-- A resource with two strong handles where handle 0 has been disposed
(handle 1 keeps the entry alive). -/
def inertState : RcState := run initState [Op.mkRc 3 false, Op.clone 0, Op.dispose 0]

/-- A live resource with one strong handle (0) and one weak handle (1). -/
def upgradeState : RcState := run initState [Op.mkRc 5 false, Op.weak 0]

/-- Per-entry part of the registry invariant, relative to the registry key
set `live`: the cleanup closure does not throw; a live entry still holds
its resource; the `disposed` flag is set exactly when the strong count has
reached zero; and a disposed entry has both counters pinned at zero and has
been removed from the registry. -/
def EPred (live : List Nat) (id : Nat) (e : RcInner) : Prop :=
  e.cleanupThrows = false ∧
  (e.disposed = false → e.data ≠ TsOption.noneV) ∧
  (e.disposed = true ↔ e.reachedZero = true) ∧
  (e.disposed = true → e.refCount = 0 ∧ e.weakCount = 0 ∧ id ∉ live)

/-- All entries of a heap satisfy `EPred`. -/
def EntriesInv (heap : List (Nat × RcInner)) (live : List Nat) : Prop :=
  ∀ id e, lookupA heap id = Option.some e → EPred live id e

/-- Structural invariant: every id ever assigned is bounded by the module
id counter. -/
def BaseInv (s : RcState) : Prop := ∀ p ∈ s.heap, p.1 ≤ s.nextId

/-- The full registry invariant. -/
def RcInv (s : RcState) : Prop := BaseInv s ∧ EntriesInv s.heap s.live

deriving instance DecidableEq for Except

/-- C6: for every disposed strong handle, member access signals the
accessed-after-disposal error, `clone`/`weak`/`intoWeak` signal
already-disposed errors, and a second `dispose` signals the double-dispose
error; the state (every counter and every handle flag) is unchanged by all
five failing calls. -/
theorem disposed_strong_handle_inert (s : RcState) (h : Nat) (sh : StrongHandle)
    (hl : lookupA s.strongs h = Option.some sh) (hd : sh.isDisposed = true) :
    Rc.access s h = (s, Except.error RcErr.accessedAfterDisposal) ∧
    Rc.clone s h = (s, Except.error RcErr.cannotClone) ∧
    Rc.weak s h = (s, Except.error RcErr.cannotWeak) ∧
    Rc.intoWeak s h = (s, Except.error RcErr.cannotIntoWeak) ∧
    Rc.dispose s h = (s, Except.error RcErr.rcAlreadyDisposed) := by
  unfold Rc.access Rc.clone Rc.weak Rc.intoWeak Rc.dispose
  simp [hl, hd]

/-- Witness for C6 at a concrete disposed handle. -/
theorem disposed_strong_handle_inert_witness :
    Rc.access inertState 0 = (inertState, Except.error RcErr.accessedAfterDisposal) ∧
    Rc.clone inertState 0 = (inertState, Except.error RcErr.cannotClone) ∧
    Rc.weak inertState 0 = (inertState, Except.error RcErr.cannotWeak) ∧
    Rc.intoWeak inertState 0 = (inertState, Except.error RcErr.cannotIntoWeak) ∧
    Rc.dispose inertState 0 = (inertState, Except.error RcErr.rcAlreadyDisposed) :=
  disposed_strong_handle_inert inertState 0 ⟨1, true, JsValue.vObj 3⟩ (by decide) rfl

/-- C1 (code evaluated at the failing input): `intoWeak` on the last strong
handle does run the cleanup synchronously inside the call (the entry ends
disposed with `cleanupRuns = 1`), but the weak proxy it returns captured
`map.get(id) = undefined` (the entry was deleted first), so `upgrade` on it
throws a `TypeError` instead of returning `None`.  By contrast, the
documented-equivalent sequence `weak` + `dispose` yields a weak handle whose
`upgrade` returns `None` and whose `dispose` succeeds, so the two are not
equivalent. -/
theorem intoWeak_last_not_equivalent_to_weak_dispose :
    lookupA zombieState.heap 1 =
      Option.some ⟨0, 0, TsOption.noneV, false, false, true, 1, true⟩ ∧
    lookupA zombieState.weaks 1 = Option.some ⟨1, false, false⟩ ∧
    Weak.upgrade zombieState 1 = (zombieState, Except.error RcErr.typeError) ∧
    Weak.upgrade weakEquivState 1 = (weakEquivState, Except.ok None) ∧
    Weak.dispose weakEquivState 1 =
      ({ weakEquivState with weaks := [(1, ⟨1, true, true⟩)] }, Except.ok ()) := by
  decide

/-- C7 (code evaluated at the failing input): `dispose` of the
not-yet-disposed weak handle returned by a last-strong-handle `intoWeak`
throws a `TypeError` (its captured `inner` is `undefined`), rather than
succeeding; for a weak handle that captured a real inner, `dispose` after
the resource is gone does succeed. -/
theorem weak_dispose_zombie_typeError :
    lookupA zombieState.weaks 1 = Option.some ⟨1, false, false⟩ ∧
    Weak.dispose zombieState 1 = (zombieState, Except.error RcErr.typeError) ∧
    (Weak.dispose weakEquivState 1).2 = Except.ok () := by
  decide

/-- C9 (code evaluated at the failing input): `Rc.inspect` on the weak
handle returned by a last-strong-handle `intoWeak` throws a `TypeError`
instead of returning a snapshot; on strong handles and on weak handles that
captured a real inner it returns the snapshot record and leaves the state
unchanged. -/
theorem inspect_zombie_typeError :
    Weak.inspect zombieState 1 = (zombieState, Except.error RcErr.typeError) ∧
    Weak.inspect weakEquivState 1 = (weakEquivState, Except.ok ⟨1, 0, 0, false, true⟩) ∧
    Rc.inspect zombieState 0 = (zombieState, Except.ok ⟨1, 0, 0, true, true⟩) := by
  decide

/-- C3 (code evaluated at the failing input): when the cleanup closure
throws during the final `dispose`, the exception is indeed swallowed (the
call returns normally) and the entry is removed from the registry, so a
later `upgrade` through a pre-existing weak handle returns `None`; but the
entry is NOT marked disposed, its resource is NOT cleared and its cleanup
closure is NOT replaced (`disposed = false`, `data` still present,
`disposeFnOriginal = true`), because the `try/catch` in the proxy sits
around all of `RcInner.dispose`, whose flag-setting statements come after
the cleanup call. -/
theorem cleanup_exception_swallowed_but_entry_not_cleared :
    Rc.dispose throwPreState 0 = (throwState, Except.ok ()) ∧
    lookupA throwState.heap 1 =
      Option.some ⟨0, 0, TsOption.someV (JsValue.vObj 7), true, true, false, 1, true⟩ ∧
    throwState.live = [] ∧
    Weak.upgrade throwWeakState 1 = (throwWeakState, Except.ok None) := by
  decide

/-- C4 counterexample: `throwState` is reachable (construct a resource
whose cleanup throws, then dispose its only strong handle), and its entry
has `reachedZero = true` (the strong count reached zero during the dispose)
while `disposed = false` — refuting the claimed "disposed iff strong count
reached zero" invariant as stated. -/
theorem invariant_fails_when_cleanup_throws :
    Reachable throwState ∧
    lookupA throwState.heap 1 =
      Option.some ⟨0, 0, TsOption.someV (JsValue.vObj 7), true, true, false, 1, true⟩ :=
  ⟨⟨[Op.mkRc 7 true, Op.dispose 0], rfl⟩, by decide⟩

/-- C10: `Some(null)` and `Some(undefined)` are `None` (not present), any
present option built by `Some` wraps the given non-null, non-undefined
value, and every present option returned by a successful `upgrade` wraps a
proxy object (never null or undefined). -/
theorem some_nullish_is_none :
    Some JsValue.vNull = None ∧
    Some JsValue.vUndefined = None ∧
    (Some JsValue.vNull).isSome = false ∧
    (∀ v, (Some v).isSome = true →
      Some v = TsOption.someV v ∧ v ≠ JsValue.vNull ∧ v ≠ JsValue.vUndefined) ∧
    (∀ s h s2 o, Weak.upgrade s h = (s2, Except.ok o) → o.isSome = true →
      ∃ nh, o = TsOption.someV (JsValue.vObj nh)) := by
  refine ⟨by decide, by decide, by decide, ?_, ?_⟩
  · intro v hv
    by_cases hnull : v = JsValue.vUndefined ∨ v = JsValue.vNull
    · simp [Some, hnull, TsOption.isSome] at hv
    · refine ⟨by simp [Some, hnull], ?_, ?_⟩
      · intro h; exact hnull (Or.inr h)
      · intro h; exact hnull (Or.inl h)
  · intro s h s2 o hup hsome
    unfold Weak.upgrade at hup
    split at hup
    · exact absurd (Prod.ext_iff.mp hup).2 (by simp)
    · split at hup
      · split at hup
        · exact absurd (Prod.ext_iff.mp hup).2 (by simp)
        · split at hup
          · injection (Prod.ext_iff.mp hup).2 with h2
            rw [← h2] at hsome
            exact absurd hsome (by decide)
          · split at hup
            · split at hup
              · injection (Prod.ext_iff.mp hup).2 with h2
                rw [← h2] at hsome
                exact absurd hsome (by decide)
              · split at hup
                · exact absurd (Prod.ext_iff.mp hup).2 (by simp)
                · split at hup
                  · exact absurd (Prod.ext_iff.mp hup).2 (by simp)
                  · injection (Prod.ext_iff.mp hup).2 with h2
                    refine ⟨s.nextHandle, ?_⟩
                    rw [← h2]
                    simp [Some]
            · injection (Prod.ext_iff.mp hup).2 with h2
              rw [← h2] at hsome
              exact absurd hsome (by decide)
      · exact absurd (Prod.ext_iff.mp hup).2 (by simp)

/-- Witness for C10 at concrete inputs: a number wraps as itself, and the
concrete successful upgrade in `upgradeState` wraps a proxy object. -/
theorem some_nullish_is_none_witness :
    (Some (JsValue.vNum 3) = TsOption.someV (JsValue.vNum 3) ∧
      JsValue.vNum 3 ≠ JsValue.vNull ∧ JsValue.vNum 3 ≠ JsValue.vUndefined) ∧
    (∃ nh, Some (JsValue.vObj 2) = TsOption.someV (JsValue.vObj nh)) := by
  refine ⟨some_nullish_is_none.2.2.2.1 (JsValue.vNum 3) (by decide), ?_⟩
  exact some_nullish_is_none.2.2.2.2 upgradeState 1 (Weak.upgrade upgradeState 1).1
    (Some (JsValue.vObj 2)) (by decide) (by decide)

/-- Lookup after an association-list update. -/
theorem lookupA_setA {α : Type} (l : List (Nat × α)) (i j : Nat) (v : α) :
    lookupA (setA l i v) j =
      if j = i then (lookupA l i).map (fun _ => v) else lookupA l j := by
  induction l with
  | nil => by_cases hj : j = i <;> simp [setA, lookupA, hj]
  | cons p t ih =>
    obtain ⟨k, w⟩ := p
    by_cases hk : k = i
    · subst hk
      by_cases hj : j = k
      · subst hj; simp [setA, lookupA]
      · have hkj : ¬ k = j := fun h => hj h.symm
        simp [setA, lookupA, hj, hkj]
    · by_cases hkj : k = j
      · have hji : ¬ j = i := fun h => hk (hkj.trans h)
        simp [setA, lookupA, hk, hkj, hji]
      · simp [setA, lookupA, hk, hkj, ih]

/-- Updating a present key makes lookup return the new value. -/
theorem lookupA_setA_self {α : Type} (l : List (Nat × α)) (i : Nat) (v w : α)
    (h : lookupA l i = Option.some w) :
    lookupA (setA l i v) i = Option.some v := by
  simp [lookupA_setA, h]

/-- Updating one key leaves other lookups unchanged. -/
theorem lookupA_setA_ne {α : Type} (l : List (Nat × α)) (i j : Nat) (v : α)
    (h : j ≠ i) :
    lookupA (setA l i v) j = lookupA l j := by
  simp [lookupA_setA, h]

/-- An association-list update does not change the key list. -/
theorem setA_keys {α : Type} (l : List (Nat × α)) (i : Nat) (v : α) :
    (setA l i v).map Prod.fst = l.map Prod.fst := by
  induction l with
  | nil => simp [setA]
  | cons p t ih =>
    obtain ⟨k, w⟩ := p
    by_cases hk : k = i <;> simp [setA, hk, ih]

/-- Removing a key from the registry key set (`map.delete`) removes it. -/
theorem not_mem_filter_ne (l : List Nat) (i : Nat) :
    i ∉ l.filter (fun j => j != i) := by
  intro hmem
  have := (List.mem_filter.mp hmem).2
  simp at this

/-- Effect of one strong-handle `dispose` that does not bring the strong
count to zero: the count is decremented and the handle marked disposed;
registry, weak proxies and all other entries are untouched. -/
theorem dispose_step_nonlast (s : RcState) (h eid : Nat) (t : JsValue) (e : RcInner)
    (hlook : lookupA s.strongs h = Option.some ⟨eid, false, t⟩)
    (hent : lookupA s.heap eid = Option.some e)
    (hdisp : e.disposed = false)
    (hne : ¬ e.refCount - 1 = 0) :
    Rc.dispose s h =
      ({ s with heap := setA s.heap eid { e with refCount := e.refCount - 1 },
                strongs := setA s.strongs h ⟨eid, true, t⟩ },
       Except.ok ()) := by
  unfold Rc.dispose RcInner.decrementCount
  simp [hlook, hent, hdisp, hne]

/-- Effect of the strong-handle `dispose` that brings the strong count to
zero: the cleanup closure runs once (ghost counter increments), the entry
is removed from the registry key set, and the handle is marked disposed;
when the cleanup does not throw the entry is also marked disposed. -/
theorem dispose_step_last (s : RcState) (h eid : Nat) (t : JsValue) (e : RcInner)
    (hlook : lookupA s.strongs h = Option.some ⟨eid, false, t⟩)
    (hent : lookupA s.heap eid = Option.some e)
    (hdisp : e.disposed = false)
    (horig : e.disposeFnOriginal = true)
    (hdata : e.data ≠ TsOption.noneV)
    (hone : e.refCount - 1 = 0) :
    ∃ e2, Rc.dispose s h =
      ({ s with heap := setA s.heap eid e2,
                live := s.live.filter (fun i => i != eid),
                strongs := setA s.strongs h ⟨eid, true, t⟩ },
       Except.ok ()) ∧
      e2.cleanupRuns = e.cleanupRuns + 1 ∧ e2.reachedZero = true ∧
      (e.cleanupThrows = false → e2.disposed = true) := by
  obtain ⟨v, hv⟩ : ∃ v, e.data = TsOption.someV v := by
    cases hd : e.data
    · exact absurd hd hdata
    · exact ⟨_, rfl⟩
  refine ⟨(RcInner.dispose { e with refCount := e.refCount - 1, reachedZero := true }).1,
    ?_, ?_, ?_, ?_⟩
  · unfold Rc.dispose RcInner.decrementCount
    simp [hlook, hent, hdisp, hone]
  · unfold RcInner.dispose
    cases hct : e.cleanupThrows <;> simp [hdisp, hv, horig, hct]
  · unfold RcInner.dispose
    cases hct : e.cleanupThrows <;> simp [hdisp, hv, horig, hct]
  · intro hct
    unfold RcInner.dispose
    simp [hdisp, hv, horig, hct]

/-- Disposing, in order, a duplicate-free list of live strong handles that
exactly accounts for an entry's strong count: the cleanup closure runs
exactly once more, the strong count reaches zero, the entry leaves the
registry key set, weak proxies are untouched, and after every proper
prefix of the disposals the cleanup has not yet run and the entry is not
disposed. -/
theorem disposeAll_run (hs : List Nat) :
    ∀ (s : RcState) (eid : Nat) (e : RcInner),
    hs ≠ [] → hs.Nodup →
    lookupA s.heap eid = Option.some e →
    e.disposed = false →
    e.disposeFnOriginal = true →
    e.data ≠ TsOption.noneV →
    e.refCount = hs.length →
    (∀ h ∈ hs, ∃ t, lookupA s.strongs h = Option.some ⟨eid, false, t⟩) →
    (∃ e2, lookupA (run s (hs.map Op.dispose)).heap eid = Option.some e2 ∧
       e2.cleanupRuns = e.cleanupRuns + 1 ∧ e2.reachedZero = true) ∧
    (run s (hs.map Op.dispose)).live = s.live.filter (fun i => i != eid) ∧
    (run s (hs.map Op.dispose)).weaks = s.weaks ∧
    (∀ k, k < hs.length →
      ∃ ek, lookupA (run s ((hs.take k).map Op.dispose)).heap eid = Option.some ek ∧
        ek.cleanupRuns = e.cleanupRuns ∧ ek.disposed = false) := by
  induction hs with
  | nil => intro s eid e hne; exact absurd rfl hne
  | cons h hs ih =>
    intro s eid e _ hnd hent hdisp horig hdata hrc hhs
    obtain ⟨t, hlook⟩ := hhs h (List.mem_cons_self h hs)
    by_cases hemp : hs = []
    · subst hemp
      have hone : e.refCount - 1 = 0 := by rw [hrc]; simp
      obtain ⟨e2, heq, hruns, hzero, _⟩ :=
        dispose_step_last s h eid t e hlook hent hdisp horig hdata hone
      have hstep1 : step s (Op.dispose h) =
          { s with heap := setA s.heap eid e2,
                   live := s.live.filter (fun i => i != eid),
                   strongs := setA s.strongs h ⟨eid, true, t⟩ } := by
        show (Rc.dispose s h).1 = _
        rw [heq]
      have hrun : run s ([h].map Op.dispose) =
          { s with heap := setA s.heap eid e2,
                   live := s.live.filter (fun i => i != eid),
                   strongs := setA s.strongs h ⟨eid, true, t⟩ } := by
        unfold run
        rw [List.map_cons, List.foldl_cons, hstep1]
        rfl
      refine ⟨⟨e2, ?_, hruns, hzero⟩, ?_, ?_, ?_⟩
      · rw [hrun]
        exact lookupA_setA_self s.heap eid e2 e hent
      · rw [hrun]
      · rw [hrun]
      · intro k hk
        have hk0 : k = 0 := Nat.lt_one_iff.mp hk
        subst hk0
        exact ⟨e, hent, rfl, hdisp⟩
    · have hlen : 0 < hs.length := List.length_pos.mpr hemp
      have hne0 : ¬ e.refCount - 1 = 0 := by
        rw [hrc, List.length_cons]
        push_cast
        omega
      have heq := dispose_step_nonlast s h eid t e hlook hent hdisp hne0
      have hnotmem := (List.nodup_cons.mp hnd).1
      have hnd2 := (List.nodup_cons.mp hnd).2
      have hstep1 : step s (Op.dispose h) =
          { s with heap := setA s.heap eid { e with refCount := e.refCount - 1 },
                   strongs := setA s.strongs h ⟨eid, true, t⟩ } := by
        show (Rc.dispose s h).1 = _
        rw [heq]
      have hrun1 : run s ((h :: hs).map Op.dispose) =
          run { s with heap := setA s.heap eid { e with refCount := e.refCount - 1 },
                       strongs := setA s.strongs h ⟨eid, true, t⟩ } (hs.map Op.dispose) := by
        unfold run
        rw [List.map_cons, List.foldl_cons, hstep1]
      have ihc := ih
        { s with heap := setA s.heap eid { e with refCount := e.refCount - 1 },
                 strongs := setA s.strongs h ⟨eid, true, t⟩ }
        eid { e with refCount := e.refCount - 1 }
        hemp hnd2
        (lookupA_setA_self s.heap eid _ e hent)
        hdisp horig hdata
        (by show e.refCount - 1 = (hs.length : Int); rw [hrc, List.length_cons]; push_cast; ring)
        (by
          intro h2 hmem
          obtain ⟨t2, hl2⟩ := hhs h2 (List.mem_cons_of_mem h hmem)
          have hne2 : h2 ≠ h := fun hh => hnotmem (hh ▸ hmem)
          refine ⟨t2, ?_⟩
          show lookupA (setA s.strongs h ⟨eid, true, t⟩) h2 = _
          rw [lookupA_setA_ne s.strongs h h2 _ hne2]
          exact hl2)
      obtain ⟨⟨e2, hl2, hr2, hz2⟩, hlive, hweaks, hpre⟩ := ihc
      refine ⟨⟨e2, ?_, hr2, hz2⟩, ?_, ?_, ?_⟩
      · rw [hrun1]
        exact hl2
      · rw [hrun1, hlive]
      · rw [hrun1, hweaks]
      · intro k hk
        cases k with
        | zero => exact ⟨e, hent, rfl, hdisp⟩
        | succ k2 =>
          have hk2 : k2 < hs.length := by rw [List.length_cons] at hk; omega
          obtain ⟨ek, hlk, hrk, hdk⟩ := hpre k2 hk2
          have htake : run s ((List.take (k2 + 1) (h :: hs)).map Op.dispose) =
              run { s with heap := setA s.heap eid { e with refCount := e.refCount - 1 },
                           strongs := setA s.strongs h ⟨eid, true, t⟩ }
                ((List.take k2 hs).map Op.dispose) := by
            unfold run
            rw [List.take_succ_cons, List.map_cons, List.foldl_cons, hstep1]
          rw [htake]
          exact ⟨ek, hlk, hrk, hdk⟩

/-- C2: for a resource whose strong count equals the number of its live,
undisposed strong handles (the original plus clones), disposing those
handles in any order (any duplicate-free enumeration, i.e. any
permutation) runs the cleanup exactly once, and it runs during the dispose
call that reduces the strong count to zero: after every proper prefix of
the disposals the cleanup has run zero times and the entry is not yet
disposed, and after the final disposal it has run exactly once. -/
theorem dispose_any_permutation_cleanup_once
    (s : RcState) (eid : Nat) (e : RcInner) (hs : List Nat)
    (hne : hs ≠ []) (hnd : hs.Nodup)
    (hent : lookupA s.heap eid = Option.some e)
    (hdisp : e.disposed = false)
    (horig : e.disposeFnOriginal = true)
    (hdata : e.data ≠ TsOption.noneV)
    (hruns0 : e.cleanupRuns = 0)
    (hrc : e.refCount = hs.length)
    (hhs : ∀ h ∈ hs, ∃ t, lookupA s.strongs h = Option.some ⟨eid, false, t⟩) :
    (∃ e2, lookupA (run s (hs.map Op.dispose)).heap eid = Option.some e2 ∧
       e2.cleanupRuns = 1 ∧ e2.reachedZero = true) ∧
    (∀ k, k < hs.length →
      ∃ ek, lookupA (run s ((hs.take k).map Op.dispose)).heap eid = Option.some ek ∧
        ek.cleanupRuns = 0 ∧ ek.disposed = false) := by
  obtain ⟨⟨e2, hl, hr, hz⟩, _, _, hpre⟩ :=
    disposeAll_run hs s eid e hne hnd hent hdisp horig hdata hrc hhs
  refine ⟨⟨e2, hl, ?_, hz⟩, ?_⟩
  · rw [hr, hruns0]
  · intro k hk
    obtain ⟨ek, h1, h2, h3⟩ := hpre k hk
    exact ⟨ek, h1, by rw [h2, hruns0], h3⟩

/-- Witness for C2: one resource, two clones (three strong handles), and
the disposal order clone1, original, clone2. -/
theorem dispose_any_permutation_cleanup_once_witness :
    (∃ e2, lookupA (run (run initState [Op.mkRc 9 false, Op.clone 0, Op.clone 0])
        ([1, 0, 2].map Op.dispose)).heap 1 = Option.some e2 ∧
       e2.cleanupRuns = 1 ∧ e2.reachedZero = true) ∧
    (∀ k, k < ([1, 0, 2] : List Nat).length →
      ∃ ek, lookupA (run (run initState [Op.mkRc 9 false, Op.clone 0, Op.clone 0])
          (([1, 0, 2].take k).map Op.dispose)).heap 1 = Option.some ek ∧
        ek.cleanupRuns = 0 ∧ ek.disposed = false) := by
  refine dispose_any_permutation_cleanup_once
    (run initState [Op.mkRc 9 false, Op.clone 0, Op.clone 0]) 1
    ⟨3, 0, TsOption.someV (JsValue.vObj 9), true, false, false, 0, false⟩
    [1, 0, 2] (by decide) (by decide) (by decide) (by decide) (by decide) (by decide)
    (by decide) (by decide) ?_
  intro h hh
  fin_cases hh <;> exact ⟨JsValue.vObj 9, by decide⟩

/-- C5: for a resource with any number of live weak handles, disposing all
of its strong handles (in any order) runs the cleanup, and afterwards
`upgrade` on every one of those weak handles returns `None` and leaves the
state unchanged: weak handles do not keep the resource alive, and a
cleaned-up resource is never resurrected. -/
theorem weak_handles_never_keep_alive
    (s : RcState) (eid : Nat) (e : RcInner) (hs ws : List Nat)
    (hne : hs ≠ []) (hnd : hs.Nodup)
    (hent : lookupA s.heap eid = Option.some e)
    (hdisp : e.disposed = false)
    (horig : e.disposeFnOriginal = true)
    (hdata : e.data ≠ TsOption.noneV)
    (hruns0 : e.cleanupRuns = 0)
    (hrc : e.refCount = hs.length)
    (hhs : ∀ h ∈ hs, ∃ t, lookupA s.strongs h = Option.some ⟨eid, false, t⟩)
    (hws : ∀ w ∈ ws, lookupA s.weaks w = Option.some ⟨eid, true, false⟩) :
    (∃ e2, lookupA (run s (hs.map Op.dispose)).heap eid = Option.some e2 ∧
       e2.cleanupRuns = 1) ∧
    (∀ w ∈ ws, Weak.upgrade (run s (hs.map Op.dispose)) w =
       (run s (hs.map Op.dispose), Except.ok None)) := by
  obtain ⟨⟨e2, hl, hr, _⟩, hlive, hweaks, _⟩ :=
    disposeAll_run hs s eid e hne hnd hent hdisp horig hdata hrc hhs
  refine ⟨⟨e2, hl, by rw [hr, hruns0]⟩, ?_⟩
  intro w hw
  have hlw : lookupA (run s (hs.map Op.dispose)).weaks w = Option.some ⟨eid, true, false⟩ := by
    rw [hweaks]
    exact hws w hw
  have hcont : eid ∉ (run s (hs.map Op.dispose)).live := by
    rw [hlive]
    exact not_mem_filter_ne s.live eid
  unfold Weak.upgrade
  simp [hlw, hl, hcont]

/-- Witness for C5: one resource, two weak handles made with `weak`, then
the single strong handle disposed; both upgrades return `None`. -/
theorem weak_handles_never_keep_alive_witness :
    (∃ e2, lookupA (run (run initState [Op.mkRc 4 false, Op.weak 0, Op.weak 0])
        ([0].map Op.dispose)).heap 1 = Option.some e2 ∧ e2.cleanupRuns = 1) ∧
    (∀ w ∈ ([1, 2] : List Nat),
      Weak.upgrade (run (run initState [Op.mkRc 4 false, Op.weak 0, Op.weak 0])
          ([0].map Op.dispose)) w =
        (run (run initState [Op.mkRc 4 false, Op.weak 0, Op.weak 0]) ([0].map Op.dispose),
         Except.ok None)) := by
  refine weak_handles_never_keep_alive
    (run initState [Op.mkRc 4 false, Op.weak 0, Op.weak 0]) 1
    ⟨1, 2, TsOption.someV (JsValue.vObj 4), true, false, false, 0, false⟩
    [0] [1, 2] (by decide) (by decide) (by decide) (by decide) (by decide) (by decide)
    (by decide) (by decide) ?_ ?_
  · intro h hh
    fin_cases hh
    exact ⟨JsValue.vObj 4, by decide⟩
  · intro w hw
    fin_cases hw <;> decide

/-- Every API call either leaves the id counter and the heap key list
unchanged, or (construction) increments the counter and prepends the fresh
id to the heap keys. -/
theorem step_keys (s : RcState) (op : Op) :
    ((step s op).nextId = s.nextId ∧
     (step s op).heap.map Prod.fst = s.heap.map Prod.fst) ∨
    ((step s op).nextId = s.nextId + 1 ∧
     (step s op).heap.map Prod.fst = (s.nextId + 1) :: s.heap.map Prod.fst) := by
  cases op with
  | mkRc r ct =>
    right
    constructor
    · show (Rc s r ct).1.nextId = s.nextId + 1
      simp [Rc, Some]
    · show (Rc s r ct).1.heap.map Prod.fst = (s.nextId + 1) :: s.heap.map Prod.fst
      simp [Rc, Some]
  | clone h =>
    left
    show (Rc.clone s h).1.nextId = s.nextId ∧
      (Rc.clone s h).1.heap.map Prod.fst = s.heap.map Prod.fst
    unfold Rc.clone
    repeat' split
    all_goals first
      | exact ⟨rfl, rfl⟩
      | exact ⟨rfl, setA_keys _ _ _⟩
  | dispose h =>
    left
    show (Rc.dispose s h).1.nextId = s.nextId ∧
      (Rc.dispose s h).1.heap.map Prod.fst = s.heap.map Prod.fst
    unfold Rc.dispose
    repeat' split
    all_goals first
      | exact ⟨rfl, rfl⟩
      | exact ⟨rfl, setA_keys _ _ _⟩
  | weak h =>
    left
    show (Rc.weak s h).1.nextId = s.nextId ∧
      (Rc.weak s h).1.heap.map Prod.fst = s.heap.map Prod.fst
    unfold Rc.weak
    repeat' split
    all_goals first
      | exact ⟨rfl, rfl⟩
      | exact ⟨rfl, setA_keys _ _ _⟩
  | intoWeak h =>
    left
    show (Rc.intoWeak s h).1.nextId = s.nextId ∧
      (Rc.intoWeak s h).1.heap.map Prod.fst = s.heap.map Prod.fst
    unfold Rc.intoWeak
    repeat' split
    all_goals first
      | exact ⟨rfl, rfl⟩
      | exact ⟨rfl, setA_keys _ _ _⟩
  | access h =>
    left
    show (Rc.access s h).1.nextId = s.nextId ∧
      (Rc.access s h).1.heap.map Prod.fst = s.heap.map Prod.fst
    unfold Rc.access
    repeat' split
    all_goals exact ⟨rfl, rfl⟩
  | inspectRc h =>
    left
    show (Rc.inspect s h).1.nextId = s.nextId ∧
      (Rc.inspect s h).1.heap.map Prod.fst = s.heap.map Prod.fst
    unfold Rc.inspect
    repeat' split
    all_goals exact ⟨rfl, rfl⟩
  | disposeWeak h =>
    left
    show (Weak.dispose s h).1.nextId = s.nextId ∧
      (Weak.dispose s h).1.heap.map Prod.fst = s.heap.map Prod.fst
    unfold Weak.dispose
    repeat' split
    all_goals first
      | exact ⟨rfl, rfl⟩
      | exact ⟨rfl, setA_keys _ _ _⟩
  | upgrade h =>
    left
    show (Weak.upgrade s h).1.nextId = s.nextId ∧
      (Weak.upgrade s h).1.heap.map Prod.fst = s.heap.map Prod.fst
    unfold Weak.upgrade
    repeat' split
    all_goals first
      | exact ⟨rfl, rfl⟩
      | exact ⟨rfl, setA_keys _ _ _⟩
  | inspectWeak h =>
    left
    show (Weak.inspect s h).1.nextId = s.nextId ∧
      (Weak.inspect s h).1.heap.map Prod.fst = s.heap.map Prod.fst
    unfold Weak.inspect
    repeat' split
    all_goals exact ⟨rfl, rfl⟩
  | accessWeak h =>
    left
    show (Weak.access s h).1.nextId = s.nextId ∧
      (Weak.access s h).1.heap.map Prod.fst = s.heap.map Prod.fst
    unfold Weak.access
    repeat' split
    all_goals exact ⟨rfl, rfl⟩

/-- One API call preserves the id bound. -/
theorem baseInv_step (s : RcState) (op : Op) (hb : BaseInv s) : BaseInv (step s op) := by
  rcases step_keys s op with ⟨hn, hk⟩ | ⟨hn, hk⟩ <;> intro p hp <;>
    have hmem : p.1 ∈ (step s op).heap.map Prod.fst := List.mem_map_of_mem Prod.fst hp <;>
    rw [hk] at hmem <;> rw [hn]
  · obtain ⟨q, hq, hq1⟩ := List.mem_map.mp hmem
    rw [← hq1]
    exact hb q hq
  · rcases List.mem_cons.mp hmem with hh | hh
    · omega
    · obtain ⟨q, hq, hq1⟩ := List.mem_map.mp hh
      have := hb q hq
      omega

/-- A call sequence preserves the id bound. -/
theorem baseInv_run (ops : List Op) : ∀ s, BaseInv s → BaseInv (run s ops) := by
  induction ops with
  | nil => intro s h; exact h
  | cons op ops ih => intro s h; exact ih _ (baseInv_step s op h)

/-- Every reachable state satisfies the id bound. -/
theorem reachable_baseInv (s : RcState) (h : Reachable s) : BaseInv s := by
  obtain ⟨ops, rfl⟩ := h
  refine baseInv_run ops initState ?_
  intro p hp
  simp [initState] at hp

/-- C8: construction always succeeds and creates a registry entry with
strong count 1, weak count 0 and disposed false, registered under a fresh
id that is strictly greater than every previously assigned id (so ids are
never reused), and returns a live strong handle bound to it. -/
theorem rc_construct_fresh (s : RcState) (r : Nat) (ct : Bool) (hr : Reachable s) :
    (Rc s r ct).2 = Except.ok s.nextHandle ∧
    (Rc s r ct).1.nextId = s.nextId + 1 ∧
    lookupA (Rc s r ct).1.heap (s.nextId + 1) =
      Option.some ⟨1, 0, TsOption.someV (JsValue.vObj r), true, ct, false, 0, false⟩ ∧
    lookupA (Rc s r ct).1.strongs s.nextHandle =
      Option.some ⟨s.nextId + 1, false, JsValue.vObj r⟩ ∧
    (s.nextId + 1) ∈ (Rc s r ct).1.live ∧
    (∀ p ∈ s.heap, p.1 < s.nextId + 1) := by
  have hb := reachable_baseInv s hr
  refine ⟨?_, ?_, ?_, ?_, ?_, ?_⟩
  · simp [Rc, Some]
  · simp [Rc, Some]
  · simp [Rc, Some, lookupA]
  · simp [Rc, Some, lookupA]
  · simp [Rc, Some]
  · intro p hp
    exact Nat.lt_succ_of_le (hb p hp)

/-- Witness for C8 at a concrete reachable state. -/
theorem rc_construct_fresh_witness :
    (Rc (run initState [Op.mkRc 1 false]) 2 false).2 = Except.ok 1 ∧
    (Rc (run initState [Op.mkRc 1 false]) 2 false).1.nextId = 2 ∧
    lookupA (Rc (run initState [Op.mkRc 1 false]) 2 false).1.heap 2 =
      Option.some ⟨1, 0, TsOption.someV (JsValue.vObj 2), true, false, false, 0, false⟩ ∧
    lookupA (Rc (run initState [Op.mkRc 1 false]) 2 false).1.strongs 1 =
      Option.some ⟨2, false, JsValue.vObj 2⟩ ∧
    (2 : Nat) ∈ (Rc (run initState [Op.mkRc 1 false]) 2 false).1.live ∧
    (∀ p ∈ (run initState [Op.mkRc 1 false]).heap, p.1 < 2) :=
  rc_construct_fresh (run initState [Op.mkRc 1 false]) 2 false ⟨[Op.mkRc 1 false], rfl⟩

/-- Successful `incrementCount`: the entry was not disposed and only the
strong count changed. -/
theorem incrementCount_ok (e e1 : RcInner) (h : e.incrementCount = Except.ok e1) :
    e.disposed = false ∧ e1 = { e with refCount := e.refCount + 1 } := by
  cases hd : e.disposed with
  | true => rw [RcInner.incrementCount] at h; simp [hd] at h
  | false => rw [RcInner.incrementCount] at h; simp [hd] at h; exact ⟨rfl, h.symm⟩

/-- Successful `decrementCount`: the entry was not disposed; the count
dropped by one and the ghost `reachedZero` is updated. -/
theorem decrementCount_ok (e e1 : RcInner) (h : e.decrementCount = Except.ok e1) :
    e.disposed = false ∧
    e1 = { e with refCount := e.refCount - 1,
                  reachedZero := if e.refCount - 1 = 0 then true else e.reachedZero } := by
  cases hd : e.disposed with
  | true => rw [RcInner.decrementCount] at h; simp [hd] at h
  | false =>
    rw [RcInner.decrementCount, if_neg (by simp [hd])] at h
    refine ⟨rfl, ?_⟩
    rw [(Except.ok.inj h).symm, hd]

/-- Successful `incrementWeakCount`. -/
theorem incrementWeakCount_ok (e e1 : RcInner) (h : e.incrementWeakCount = Except.ok e1) :
    e.disposed = false ∧ e1 = { e with weakCount := e.weakCount + 1 } := by
  cases hd : e.disposed with
  | true => rw [RcInner.incrementWeakCount] at h; simp [hd] at h
  | false => rw [RcInner.incrementWeakCount] at h; simp [hd] at h; exact ⟨rfl, h.symm⟩

/-- Successful `decrementWeakCount`. -/
theorem decrementWeakCount_ok (e e1 : RcInner) (h : e.decrementWeakCount = Except.ok e1) :
    e.disposed = false ∧ e1 = { e with weakCount := e.weakCount - 1 } := by
  cases hd : e.disposed with
  | true => rw [RcInner.decrementWeakCount] at h; simp [hd] at h
  | false => rw [RcInner.decrementWeakCount] at h; simp [hd] at h; exact ⟨rfl, h.symm⟩

/-- `incrementWeakCount` throws only on a disposed entry. -/
theorem incrementWeakCount_err (e : RcInner) (err : RcErr)
    (h : e.incrementWeakCount = Except.error err) : e.disposed = true := by
  cases hd : e.disposed with
  | true => rfl
  | false => rw [RcInner.incrementWeakCount] at h; simp [hd] at h

/-- `RcInner.dispose` of a live entry whose cleanup does not throw yields
the fully cleared, disposed entry. -/
theorem dispose_inner_explicit (e : RcInner) (hd : e.disposed = false) (v : JsValue)
    (hv : e.data = TsOption.someV v) (hct : e.cleanupThrows = false) :
    ∃ n, (RcInner.dispose e).1 =
      { refCount := 0, weakCount := 0, data := TsOption.noneV, disposeFnOriginal := false,
        cleanupThrows := e.cleanupThrows, disposed := true, cleanupRuns := n,
        reachedZero := true } := by
  cases ho : e.disposeFnOriginal with
  | false =>
    refine ⟨e.cleanupRuns, ?_⟩
    unfold RcInner.dispose
    simp [hd, hv, hct, ho]
  | true =>
    refine ⟨e.cleanupRuns + 1, ?_⟩
    unfold RcInner.dispose
    simp [hd, hv, hct, ho]

/-- Updating one entry preserves the entries invariant when the new entry
satisfies its predicate. -/
theorem entriesInv_set (heap : List (Nat × RcInner)) (live : List Nat) (i : Nat)
    (e' : RcInner) (hinv : EntriesInv heap live) (hp : EPred live i e') :
    EntriesInv (setA heap i e') live := by
  intro j ej hj
  rw [lookupA_setA] at hj
  by_cases hji : j = i
  · subst hji
    rw [if_pos rfl] at hj
    cases hl : lookupA heap j with
    | none => rw [hl] at hj; simp at hj
    | some w =>
      rw [hl] at hj
      simp at hj
      rw [← hj]
      exact hp
  · rw [if_neg hji] at hj
    exact hinv j ej hj

/-- Shrinking the registry key set preserves the entries invariant. -/
theorem entriesInv_filter (heap : List (Nat × RcInner)) (live : List Nat) (p : Nat → Bool)
    (hinv : EntriesInv heap live) :
    EntriesInv heap (live.filter p) := by
  intro j ej hj
  obtain ⟨h1, h2, h3, h4⟩ := hinv j ej hj
  refine ⟨h1, h2, h3, ?_⟩
  intro hd
  obtain ⟨c1, c2, c3⟩ := h4 hd
  exact ⟨c1, c2, fun hmem => c3 (List.mem_of_mem_filter hmem)⟩

/-- An update of a live entry that keeps it undisposed (and preserves data,
cleanup flag and the ghost `reachedZero`) preserves `EPred`. -/
theorem ePred_of_undisposed (live : List Nat) (i : Nat) (e e' : RcInner)
    (hp : EPred live i e) (hd : e.disposed = false)
    (h1 : e'.cleanupThrows = e.cleanupThrows) (h2 : e'.data = e.data)
    (h3 : e'.disposed = false) (h4 : e'.reachedZero = e.reachedZero) :
    EPred live i e' := by
  obtain ⟨p1, p2, p3, p4⟩ := hp
  refine ⟨h1.trans p1, ?_, ?_, ?_⟩
  · intro _
    rw [h2]
    exact p2 hd
  · rw [h3, h4]
    constructor
    · intro hh
      exact absurd hh (by simp)
    · intro hz
      exact absurd (p3.mpr hz) (by simp [hd])
  · intro hh
    rw [h3] at hh
    exact absurd hh (by simp)

/-- A freshly cleared, disposed entry satisfies `EPred` once its id is out
of the registry key set. -/
theorem ePred_disposed_entry (live : List Nat) (i : Nat) (n : Nat) (ct : Bool)
    (hnotin : i ∉ live) (hct : ct = false) :
    EPred live i { refCount := 0, weakCount := 0, data := TsOption.noneV,
                   disposeFnOriginal := false, cleanupThrows := ct, disposed := true,
                   cleanupRuns := n, reachedZero := true } := by
  refine ⟨hct, ?_, ?_, ?_⟩ <;> simp [hnotin]

/-- Member access never mutates the state. -/
theorem access_state_id (s : RcState) (h : Nat) : (Rc.access s h).1 = s := by
  unfold Rc.access
  repeat' split
  all_goals rfl

/-- `Rc.inspect` on a strong proxy never mutates the state. -/
theorem inspect_state_id (s : RcState) (h : Nat) : (Rc.inspect s h).1 = s := by
  unfold Rc.inspect
  repeat' split
  all_goals rfl

/-- `Rc.inspect` on a weak proxy never mutates the state. -/
theorem weak_inspect_state_id (s : RcState) (h : Nat) : (Weak.inspect s h).1 = s := by
  unfold Weak.inspect
  repeat' split
  all_goals rfl

/-- Direct member access on a weak proxy never mutates the state. -/
theorem weak_access_state_id (s : RcState) (h : Nat) : (Weak.access s h).1 = s := by
  unfold Weak.access
  repeat' split
  all_goals rfl

/-- `clone` preserves the entries invariant. -/
theorem entriesInv_clone (s : RcState) (h : Nat)
    (hinv : EntriesInv s.heap s.live) :
    EntriesInv (Rc.clone s h).1.heap (Rc.clone s h).1.live := by
  unfold Rc.clone
  split
  · exact hinv
  · rename_i sh hsh
    split
    · exact hinv
    · split
      · exact hinv
      · rename_i e hent
        split
        · exact hinv
        · rename_i e1 hinc
          obtain ⟨hd, he1⟩ := incrementCount_ok e e1 hinc
          have hp := hinv sh.entryId e hent
          have hp1 : EPred s.live sh.entryId e1 := by
            refine ePred_of_undisposed s.live sh.entryId e e1 hp hd ?_ ?_ ?_ ?_ <;>
              simp [he1, hd]
          split
          · exact entriesInv_set s.heap s.live sh.entryId e1 hinv hp1
          · exact entriesInv_set s.heap s.live sh.entryId e1 hinv hp1

theorem entriesInv_weak (s : RcState) (h : Nat)
    (hinv : EntriesInv s.heap s.live) :
    EntriesInv (Rc.weak s h).1.heap (Rc.weak s h).1.live := by
  unfold Rc.weak
  split
  · exact hinv
  · rename_i sh hsh
    split
    · exact hinv
    · split
      · exact hinv
      · rename_i e hent
        split
        · exact hinv
        · rename_i e1 hinc
          obtain ⟨hd, he1⟩ := incrementWeakCount_ok e e1 hinc
          have hp := hinv sh.entryId e hent
          have hp1 : EPred s.live sh.entryId e1 := by
            refine ePred_of_undisposed s.live sh.entryId e e1 hp hd ?_ ?_ ?_ ?_ <;>
              simp [he1, hd]
          exact entriesInv_set s.heap s.live sh.entryId e1 hinv hp1

/-- `upgrade` preserves the entries invariant. -/
theorem entriesInv_upgrade (s : RcState) (h : Nat)
    (hinv : EntriesInv s.heap s.live) :
    EntriesInv (Weak.upgrade s h).1.heap (Weak.upgrade s h).1.live := by
  unfold Weak.upgrade
  split
  · exact hinv
  · rename_i wh hwh
    split
    · split
      · exact hinv
      · rename_i e hent
        split
        · exact hinv
        · split
          · split
            · exact hinv
            · split
              · exact hinv
              · rename_i e1 hinc
                obtain ⟨hd, he1⟩ := incrementCount_ok e e1 hinc
                have hp := hinv wh.entryId e hent
                have hp1 : EPred s.live wh.entryId e1 := by
                  refine ePred_of_undisposed s.live wh.entryId e e1 hp hd ?_ ?_ ?_ ?_ <;>
                    simp [he1, hd]
                split
                · exact entriesInv_set s.heap s.live wh.entryId e1 hinv hp1
                · exact entriesInv_set s.heap s.live wh.entryId e1 hinv hp1
          · exact hinv
    · exact hinv

/-- Weak-handle `dispose` preserves the entries invariant. -/
theorem entriesInv_disposeWeak (s : RcState) (h : Nat)
    (hinv : EntriesInv s.heap s.live) :
    EntriesInv (Weak.dispose s h).1.heap (Weak.dispose s h).1.live := by
  unfold Weak.dispose
  split
  · exact hinv
  · rename_i wh hwh
    split
    · split
      · exact hinv
      · rename_i e hent
        split
        · exact hinv
        · split
          · exact hinv
          · split
            · exact hinv
            · rename_i e1 hdec
              obtain ⟨hd, he1⟩ := decrementWeakCount_ok e e1 hdec
              have hp := hinv wh.entryId e hent
              have hp1 : EPred s.live wh.entryId e1 := by
                refine ePred_of_undisposed s.live wh.entryId e e1 hp hd ?_ ?_ ?_ ?_ <;>
                  simp [he1, hd]
              exact entriesInv_set s.heap s.live wh.entryId e1 hinv hp1
    · exact hinv

/-- Strong-handle `dispose` preserves the entries invariant (cleanups must
not throw). -/
theorem entriesInv_dispose (s : RcState) (h : Nat)
    (hinv : EntriesInv s.heap s.live) :
    EntriesInv (Rc.dispose s h).1.heap (Rc.dispose s h).1.live := by
  unfold Rc.dispose
  split
  · exact hinv
  · rename_i sh hsh
    split
    · exact hinv
    · split
      · exact hinv
      · rename_i e hent
        split
        · exact hinv
        · rename_i e1 hdec
          obtain ⟨hd, he1⟩ := decrementCount_ok e e1 hdec
          have hp := hinv sh.entryId e hent
          split
          · rename_i hzero
            have hd1 : e1.disposed = false := by simp [he1, hd]
            have hct1 : e1.cleanupThrows = false := by simp [he1]; exact hp.1
            obtain ⟨v, hv⟩ : ∃ v, e1.data = TsOption.someV v := by
              have hdata := hp.2.1 hd
              rw [he1]
              cases hcd : e.data
              · exact absurd hcd hdata
              · exact ⟨_, rfl⟩
            obtain ⟨n, he2⟩ := dispose_inner_explicit e1 hd1 v hv hct1
            rw [he2]
            have hinv2 := entriesInv_filter s.heap s.live (fun i => i != sh.entryId) hinv
            refine entriesInv_set s.heap _ sh.entryId _ hinv2 ?_
            refine ePred_disposed_entry _ sh.entryId n e1.cleanupThrows
              (not_mem_filter_ne s.live sh.entryId) hct1
          · rename_i hnz
            have hp1 : EPred s.live sh.entryId e1 := by
              refine ePred_of_undisposed s.live sh.entryId e e1 hp hd ?_ ?_ ?_ ?_ <;>
                simp [he1, hd]
              rw [he1] at hnz
              simp at hnz
              simp [hnz]
            exact entriesInv_set s.heap s.live sh.entryId e1 hinv hp1

/-- `intoWeak` preserves the entries invariant (cleanups must not
throw). -/
theorem entriesInv_intoWeak (s : RcState) (h : Nat)
    (hinv : EntriesInv s.heap s.live) :
    EntriesInv (Rc.intoWeak s h).1.heap (Rc.intoWeak s h).1.live := by
  unfold Rc.intoWeak
  split
  · exact hinv
  · rename_i sh hsh
    split
    · exact hinv
    · split
      · exact hinv
      · rename_i e hent
        split
        · exact hinv
        · rename_i e1 hdec
          obtain ⟨hd, he1⟩ := decrementCount_ok e e1 hdec
          have hp := hinv sh.entryId e hent
          split
          · rename_i err herr
            exact absurd (incrementWeakCount_err e1 err herr) (by simp [he1, hd])
          · rename_i e2 hincw
            obtain ⟨hd2, he2⟩ := incrementWeakCount_ok e1 e2 hincw
            split
            · rename_i hzero
              have hd2f : e2.disposed = false := by simp [he2, he1, hd]
              have hct2 : e2.cleanupThrows = false := by simp [he2, he1]; exact hp.1
              obtain ⟨v, hv⟩ : ∃ v, e2.data = TsOption.someV v := by
                have hdata := hp.2.1 hd
                rw [he2, he1]
                cases hcd : e.data
                · exact absurd hcd hdata
                · exact ⟨_, rfl⟩
              obtain ⟨n, he3⟩ := dispose_inner_explicit e2 hd2f v hv hct2
              rw [he3]
              have hinv2 := entriesInv_filter s.heap s.live (fun i => i != sh.entryId) hinv
              refine entriesInv_set s.heap _ sh.entryId _ hinv2 ?_
              exact ePred_disposed_entry _ sh.entryId n e2.cleanupThrows
                (not_mem_filter_ne s.live sh.entryId) hct2
            · rename_i hnz
              have hp2 : EPred s.live sh.entryId e2 := by
                refine ePred_of_undisposed s.live sh.entryId e e2 hp hd ?_ ?_ ?_ ?_ <;>
                  simp [he2, he1, hd]
                rw [he2, he1] at hnz
                simp at hnz
                simp [hnz]
              exact entriesInv_set s.heap s.live sh.entryId e2 hinv hp2

/-- Construction with a non-throwing cleanup preserves the entries
invariant. -/
theorem entriesInv_mkRc (s : RcState) (r : Nat)
    (hinv : EntriesInv s.heap s.live) :
    EntriesInv (Rc s r false).1.heap (Rc s r false).1.live := by
  show EntriesInv
    ((s.nextId + 1,
      { refCount := 1, weakCount := 0, data := Some (JsValue.vObj r),
        disposeFnOriginal := true, cleanupThrows := false, disposed := false,
        cleanupRuns := 0, reachedZero := false }) :: s.heap)
    ((s.nextId + 1) :: s.live)
  intro j ej hj
  rw [lookupA] at hj
  by_cases hji : s.nextId + 1 = j
  · rw [if_pos hji] at hj
    have hej := (Option.some.inj hj).symm
    rw [hej]
    refine ⟨rfl, ?_, ?_, ?_⟩
    · intro _
      simp [Some]
    · simp
    · intro hh
      simp at hh
  · rw [if_neg hji] at hj
    obtain ⟨p1, p2, p3, p4⟩ := hinv j ej hj
    refine ⟨p1, p2, p3, ?_⟩
    intro hdisp
    obtain ⟨c1, c2, c3⟩ := p4 hdisp
    refine ⟨c1, c2, ?_⟩
    intro hmem
    rcases List.mem_cons.mp hmem with hh | hh
    · exact hji hh.symm
    · exact c3 hh

/-- Any single API call whose cleanup closure (if any) does not throw
preserves the entries invariant. -/
theorem entriesInv_step (s : RcState) (op : Op) (hnt : op.noThrow)
    (hinv : EntriesInv s.heap s.live) :
    EntriesInv (step s op).heap (step s op).live := by
  cases op with
  | mkRc r ct =>
    have hct : ct = false := hnt
    subst hct
    exact entriesInv_mkRc s r hinv
  | clone h => exact entriesInv_clone s h hinv
  | dispose h => exact entriesInv_dispose s h hinv
  | weak h => exact entriesInv_weak s h hinv
  | intoWeak h => exact entriesInv_intoWeak s h hinv
  | access h =>
    show EntriesInv (Rc.access s h).1.heap (Rc.access s h).1.live
    rw [access_state_id]
    exact hinv
  | inspectRc h =>
    show EntriesInv (Rc.inspect s h).1.heap (Rc.inspect s h).1.live
    rw [inspect_state_id]
    exact hinv
  | disposeWeak h => exact entriesInv_disposeWeak s h hinv
  | upgrade h => exact entriesInv_upgrade s h hinv
  | inspectWeak h =>
    show EntriesInv (Weak.inspect s h).1.heap (Weak.inspect s h).1.live
    rw [weak_inspect_state_id]
    exact hinv
  | accessWeak h =>
    show EntriesInv (Weak.access s h).1.heap (Weak.access s h).1.live
    rw [weak_access_state_id]
    exact hinv

/-- A call sequence without throwing cleanups preserves the entries
invariant. -/
theorem entriesInv_run (ops : List Op) : ∀ s, (∀ op ∈ ops, op.noThrow) →
    EntriesInv s.heap s.live → EntriesInv (run s ops).heap (run s ops).live := by
  induction ops with
  | nil => intro s _ h; exact h
  | cons op ops ih =>
    intro s hnt h
    exact ih (step s op) (fun o ho => hnt o (List.mem_cons_of_mem op ho))
      (entriesInv_step s op (hnt op (List.mem_cons_self op ops)) h)

/-- C4 (amended: restricted to call sequences in which every cleanup
closure is non-throwing — the counterexample shows the claim fails
otherwise): at every reachable state, an entry's `disposed` flag is true
iff its strong count has reached zero at least once; and once `disposed`
is true, the entry's strong and weak counts are 0, its id has been removed
from the registry, and no weak handle bound to it can ever upgrade to a
present option again. -/
theorem registry_invariant_no_throw (s : RcState) (hr : ReachableNT s) :
    ∀ id e, lookupA s.heap id = Option.some e →
      ((e.disposed = true ↔ e.reachedZero = true) ∧
       (e.disposed = true →
         e.refCount = 0 ∧ e.weakCount = 0 ∧ id ∉ s.live ∧
         (∀ w wh, lookupA s.weaks w = Option.some wh → wh.entryId = id →
           ∀ x, (Weak.upgrade s w).2 ≠ Except.ok (TsOption.someV x)))) := by
  obtain ⟨ops, hnt, rfl⟩ := hr
  have hinv : EntriesInv (run initState ops).heap (run initState ops).live :=
    entriesInv_run ops initState hnt (by intro j e hj; simp [initState, lookupA] at hj)
  intro id e hent
  obtain ⟨p1, p2, p3, p4⟩ := hinv id e hent
  refine ⟨p3, ?_⟩
  intro hd
  obtain ⟨c1, c2, c3⟩ := p4 hd
  refine ⟨c1, c2, c3, ?_⟩
  intro w wh hw hwid x
  subst hwid
  cases hcap : wh.captured with
  | false => simp [Weak.upgrade, hw, hcap]
  | true =>
    cases hdw : wh.isDisposed with
    | true => simp [Weak.upgrade, hw, hcap, hent, hdw, None]
    | false => simp [Weak.upgrade, hw, hcap, hent, hdw, c3, hd, None]

/-- Witness for C4 at a concrete reachable no-throw state and its disposed
entry. -/
theorem registry_invariant_no_throw_witness :
    (((⟨0, 0, TsOption.noneV, false, false, true, 1, true⟩ : RcInner).disposed = true ↔
      (⟨0, 0, TsOption.noneV, false, false, true, 1, true⟩ : RcInner).reachedZero = true) ∧
     ((⟨0, 0, TsOption.noneV, false, false, true, 1, true⟩ : RcInner).disposed = true →
       (⟨0, 0, TsOption.noneV, false, false, true, 1, true⟩ : RcInner).refCount = 0 ∧
       (⟨0, 0, TsOption.noneV, false, false, true, 1, true⟩ : RcInner).weakCount = 0 ∧
       1 ∉ (run initState [Op.mkRc 5 false, Op.dispose 0]).live ∧
       (∀ w wh, lookupA (run initState [Op.mkRc 5 false, Op.dispose 0]).weaks w =
           Option.some wh → wh.entryId = 1 →
         ∀ x, (Weak.upgrade (run initState [Op.mkRc 5 false, Op.dispose 0]) w).2 ≠
           Except.ok (TsOption.someV x)))) :=
  registry_invariant_no_throw (run initState [Op.mkRc 5 false, Op.dispose 0])
    ⟨[Op.mkRc 5 false, Op.dispose 0], by intro op hop; fin_cases hop <;> trivial, rfl⟩
    1 ⟨0, 0, TsOption.noneV, false, false, true, 1, true⟩ (by decide)
